import Mathlib

/-!
Verification of the maneuver-risk core (`maneuver_covariance.py`,
`maneuver_orbit.py`, `maneuver_risk.py`).

The Python code is embedded shallowly over the real numbers:

* 3-vectors are `Fin 3 → ℝ`;
* a 6×6 position/velocity covariance is a matrix indexed by `Fin 3 ⊕ Fin 3`,
  so the NumPy block slices `[:3,:3]`, `[:3,3:]`, `[3:,:3]`, `[3:,3:]`
  become `toBlocks₁₁`, `toBlocks₁₂`, `toBlocks₂₁`, `toBlocks₂₂`;
* `np.linalg.norm` of a 3-vector is `Real.sqrt` of the sum of squares;
* `np.linalg.inv` raising `LinAlgError` on a singular matrix becomes a test
  `det = 0` (exact arithmetic) guarding Mathlib's matrix inverse;
* `scipy.stats.ncx2.cdf(x, df=3, nc=λ)` — external library code — is modelled
  by its mathematical definition: the probability that the squared norm of a
  3-dimensional Gaussian vector with mean `(√λ, 0, 0)` and identity covariance
  is at most `x`.  (For λ ≥ 0, the reachable domain, this is exactly the
  noncentral chi-square CDF with 3 degrees of freedom.)
-/

open Matrix MeasureTheory ProbabilityTheory

noncomputable section

/-- A 6×6 covariance, indexed by position coordinates (`Sum.inl`) and velocity
coordinates (`Sum.inr`). -/
abbrev Cov6 := Matrix (Fin 3 ⊕ Fin 3) (Fin 3 ⊕ Fin 3) ℝ

/-- A 3×3 matrix. -/
abbrev Mat3 := Matrix (Fin 3) (Fin 3) ℝ

/-- A 3-vector. -/
abbrev Vec3 := Fin 3 → ℝ

/-- Embedding of `np.linalg.norm` on a 3-vector: the Euclidean norm. -/
def norm3 (v : Vec3) : ℝ :=
  Real.sqrt (v 0 ^ 2 + v 1 ^ 2 + v 2 ^ 2)

/-- Constant from `maneuver_covariance.py`: `velocity_uncertainty_scale = 0.05`. -/
def velocity_uncertainty_scale : ℝ := 0.05

/-- Constant from `maneuver_covariance.py`: `coupling_factor = 0.1`. -/
def coupling_factor : ℝ := 0.1

/-- Embedding of `maneuver_covariance.py` lines 27–30: the unit vector of the burn,
`delta_v_vector / delta_v_magnitude` if `delta_v_magnitude > 0`, else the zero
vector (`np.zeros_like`). -/
def delta_v_unit_of (delta_v_vector : Vec3) : Vec3 :=
  if norm3 delta_v_vector > 0 then
    fun i => delta_v_vector i / norm3 delta_v_vector
  else
    fun _ => 0

/-- Embedding of `maneuver_covariance.py` line 33:
`Q_velocity = velocity_uncertainty_scale**2 * delta_v_magnitude**2 * np.outer(delta_v_unit, delta_v_unit)`. -/
def Q_velocity_of (delta_v_vector : Vec3) : Mat3 :=
  Matrix.of fun i j =>
    velocity_uncertainty_scale ^ 2 * norm3 delta_v_vector ^ 2 *
      (delta_v_unit_of delta_v_vector i * delta_v_unit_of delta_v_vector j)

/-- Embedding of `update_covariance_with_vector` from `maneuver_covariance.py`:
adds the process noise `Q_velocity` to the velocity block, `coupling_factor`
times it to the cross and position blocks, and reassembles the 6×6 matrix with
the lower-left block set to the transpose of the updated cross block. -/
def update_covariance_with_vector (cov_matrix : Cov6) (delta_v_vector : Vec3) : Cov6 :=
  let P_velocity := cov_matrix.toBlocks₂₂
  let P_velocity_updated := P_velocity + Q_velocity_of delta_v_vector
  let P_cross := cov_matrix.toBlocks₁₂
  let P_cross_updated := P_cross + coupling_factor • Q_velocity_of delta_v_vector
  let P_position := cov_matrix.toBlocks₁₁
  let P_position_updated := P_position + coupling_factor • Q_velocity_of delta_v_vector
  Matrix.fromBlocks P_position_updated P_cross_updated P_cross_updatedᵀ P_velocity_updated

/-- Earth's gravitational parameter, the default `mu` of `calculate_delta_r`. -/
def muEarth : ℝ := 3.986004418e14

/-- Embedding of `calculate_delta_r` from `maneuver_orbit.py`.  The Python
function has default argument `mu=3.986004418e14`; here `mu` is explicit and
the claims instantiate it with `muEarth`.  Returns `(delta_r, a_new)`. -/
def calculate_delta_r (a delta_v mu : ℝ) : ℝ × ℝ :=
  let v := Real.sqrt (mu / a)
  let v_new := v + delta_v
  let E_new := 0.5 * v_new ^ 2 - mu / a
  let a_new := -mu / (2 * E_new)
  (a_new - a, a_new)

/-- Mathematical model of `scipy.stats.ncx2.cdf(x, df=3, nc)`: the probability
that `Z₁² + Z₂² + Z₃² ≤ x` where `Z₁ ~ N(√nc, 1)`, `Z₂, Z₃ ~ N(0, 1)` are
independent — the noncentral chi-square CDF with 3 degrees of freedom and
noncentrality `nc ≥ 0`, evaluated at `x`. -/
def ncx2cdf3 (x nc : ℝ) : ℝ :=
  (((gaussianReal (Real.sqrt nc) 1).prod
      ((gaussianReal 0 1).prod (gaussianReal 0 1)))
    {p : ℝ × ℝ × ℝ | p.1 ^ 2 + p.2.1 ^ 2 + p.2.2 ^ 2 ≤ x}).toReal

/-- Embedding of `compute_collision_probability` from `maneuver_risk.py`:
`np.linalg.inv` raises `LinAlgError` exactly on a singular matrix, and the
`except` branch returns 1.0; otherwise the noncentral chi-square CDF is
evaluated at `collision_radius**2` with noncentrality
`d.T @ inv_P_rel @ d`. -/
def compute_collision_probability (relative_position : Vec3) (cov_rel : Mat3)
    (collision_radius : ℝ) : ℝ :=
  if cov_rel.det = 0 then 1
  else
    let inv_P_rel := cov_rel⁻¹
    let lambda_param := relative_position ⬝ᵥ inv_P_rel.mulVec relative_position
    ncx2cdf3 (collision_radius ^ 2) lambda_param

/-- Embedding of `compute_risk` from `maneuver_risk.py`: propagate the
covariance, compute the radius change (with the default `mu`), build the
synthetic relative position `[delta_r, 0, 0]`, take the position block of the
updated covariance, and scale the collision probability (collision radius 10)
by the original risk. -/
def compute_risk (original_risk : ℝ) (delta_v_vector : Vec3)
    (initial_cov_matrix : Cov6) (initial_r : ℝ) : ℝ :=
  let updated_cov_matrix := update_covariance_with_vector initial_cov_matrix delta_v_vector
  let delta_r := (calculate_delta_r initial_r (norm3 delta_v_vector) muEarth).1
  let relative_position : Vec3 := ![delta_r, 0, 0]
  let cov_rel := updated_cov_matrix.toBlocks₁₁
  compute_collision_probability relative_position cov_rel 10 * original_risk

/-! ### Basic facts about `norm3` and `Q_velocity_of` -/

/-! ### Bounds on the collision probability -/

lemma ncx2cdf3_nonneg (x nc : ℝ) : 0 ≤ ncx2cdf3 x nc :=
  ENNReal.toReal_nonneg

lemma ncx2cdf3_le_one (x nc : ℝ) : ncx2cdf3 x nc ≤ 1 := by
  unfold ncx2cdf3
  have h := prob_le_one (μ := (gaussianReal (Real.sqrt nc) 1).prod
      ((gaussianReal 0 1).prod (gaussianReal 0 1)))
    (s := {p : ℝ × ℝ × ℝ | p.1 ^ 2 + p.2.1 ^ 2 + p.2.2 ^ 2 ≤ x})
  calc (((gaussianReal (Real.sqrt nc) 1).prod
      ((gaussianReal 0 1).prod (gaussianReal 0 1)))
      {p : ℝ × ℝ × ℝ | p.1 ^ 2 + p.2.1 ^ 2 + p.2.2 ^ 2 ≤ x}).toReal
      ≤ (1 : ENNReal).toReal := ENNReal.toReal_mono ENNReal.one_ne_top h
    _ = 1 := ENNReal.one_toReal

lemma compute_collision_probability_nonneg (d : Vec3) (P : Mat3) (R : ℝ) :
    0 ≤ compute_collision_probability d P R := by
  unfold compute_collision_probability
  split_ifs with h
  · exact zero_le_one
  · exact ncx2cdf3_nonneg _ _

lemma compute_collision_probability_le_one (d : Vec3) (P : Mat3) (R : ℝ) :
    compute_collision_probability d P R ≤ 1 := by
  unfold compute_collision_probability
  split_ifs with h
  · exact le_refl 1
  · exact ncx2cdf3_le_one _ _

lemma compute_collision_probability_of_det_eq_zero (d : Vec3) {P : Mat3} (R : ℝ)
    (h : P.det = 0) : compute_collision_probability d P R = 1 := by
  unfold compute_collision_probability
  rw [if_pos h]

lemma norm3_nonneg (v : Vec3) : 0 ≤ norm3 v :=
  Real.sqrt_nonneg _

lemma eq_zero_of_norm3_eq_zero {v : Vec3} (h : norm3 v = 0) : v = 0 := by
  have hsum : v 0 ^ 2 + v 1 ^ 2 + v 2 ^ 2 ≤ 0 := Real.sqrt_eq_zero'.mp h
  have h0 : v 0 = 0 := by nlinarith [sq_nonneg (v 0), sq_nonneg (v 1), sq_nonneg (v 2)]
  have h1 : v 1 = 0 := by nlinarith [sq_nonneg (v 0), sq_nonneg (v 1), sq_nonneg (v 2)]
  have h2 : v 2 = 0 := by nlinarith [sq_nonneg (v 0), sq_nonneg (v 1), sq_nonneg (v 2)]
  funext i
  fin_cases i <;> assumption

lemma norm3_pos_of_ne_zero {v : Vec3} (h : v ≠ 0) : 0 < norm3 v := by
  rcases lt_or_eq_of_le (norm3_nonneg v) with hlt | heq
  · exact hlt
  · exact absurd (eq_zero_of_norm3_eq_zero heq.symm) h

/-- Closed form for the process noise: the normalisation by the magnitude
cancels, so `Q_velocity i j = scale² · ΔVᵢ · ΔVⱼ` in all cases (including the
zero-burn branch). -/
lemma Q_velocity_of_apply (w : Vec3) (i j : Fin 3) :
    Q_velocity_of w i j = velocity_uncertainty_scale ^ 2 * (w i * w j) := by
  unfold Q_velocity_of delta_v_unit_of
  by_cases h : norm3 w > 0
  · have hn : norm3 w ≠ 0 := ne_of_gt h
    rw [if_pos h]
    simp only [Matrix.of_apply]
    field_simp
    ring
  · have h0 : norm3 w = 0 := le_antisymm (not_lt.mp h) (norm3_nonneg w)
    have hw : w = 0 := eq_zero_of_norm3_eq_zero h0
    rw [if_neg h]
    subst hw
    simp [h0]

lemma Q_velocity_of_symm (w : Vec3) : (Q_velocity_of w)ᵀ = Q_velocity_of w := by
  ext i j
  rw [Matrix.transpose_apply, Q_velocity_of_apply, Q_velocity_of_apply]
  ring

lemma Q_velocity_of_zero : Q_velocity_of ![0, 0, 0] = 0 := by
  ext i j
  rw [Q_velocity_of_apply]
  fin_cases i <;> fin_cases j <;> simp

/-- The update, written as an explicit block matrix. -/
lemma update_covariance_with_vector_eq (cov : Cov6) (w : Vec3) :
    update_covariance_with_vector cov w =
      Matrix.fromBlocks (cov.toBlocks₁₁ + coupling_factor • Q_velocity_of w)
        (cov.toBlocks₁₂ + coupling_factor • Q_velocity_of w)
        (cov.toBlocks₁₂ + coupling_factor • Q_velocity_of w)ᵀ
        (cov.toBlocks₂₂ + Q_velocity_of w) :=
  rfl

/-! ### Claims -/

/-- C1: for every 3D relative position, every 3×3 relative covariance and every
collision radius, `compute_collision_probability` returns a value in [0, 1],
and returns exactly 1.0 when the covariance is singular (the value is total —
no exception escapes the singular case, which is modelled by the `det = 0`
branch). -/
theorem collision_probability_bounds (d : Vec3) (P : Mat3) (R : ℝ) :
    (0 ≤ compute_collision_probability d P R ∧
      compute_collision_probability d P R ≤ 1) ∧
    (P.det = 0 → compute_collision_probability d P R = 1) :=
  ⟨⟨compute_collision_probability_nonneg d P R,
    compute_collision_probability_le_one d P R⟩,
   fun h => compute_collision_probability_of_det_eq_zero d R h⟩

/-- Witness for C1 at a concrete input: the zero 3×3 matrix is singular and
the returned probability is exactly 1. -/
theorem collision_probability_bounds_witness :
    compute_collision_probability ![1, 2, 3] 0 10 = 1 :=
  (collision_probability_bounds ![1, 2, 3] 0 10).2 (Matrix.det_zero ⟨0⟩)

/-- C2: for every original risk in [0, 1], every delta-V, every 6×6 initial
covariance and every initial radius greater than 0, `compute_risk` returns a
value in `[0, original_risk]`; when the singular-covariance fallback triggers
(the position block of the updated covariance has determinant 0) it returns
exactly `original_risk`. -/
theorem compute_risk_bounds (original_risk : ℝ) (dv : Vec3) (cov : Cov6)
    (r : ℝ) (h0 : 0 ≤ original_risk) (_h1 : original_risk ≤ 1) (_hr : 0 < r) :
    (0 ≤ compute_risk original_risk dv cov r ∧
      compute_risk original_risk dv cov r ≤ original_risk) ∧
    ((update_covariance_with_vector cov dv).toBlocks₁₁.det = 0 →
      compute_risk original_risk dv cov r = original_risk) := by
  dsimp only [compute_risk]
  refine ⟨⟨mul_nonneg (compute_collision_probability_nonneg _ _ _) h0, ?_⟩, ?_⟩
  · calc compute_collision_probability _ _ 10 * original_risk
        ≤ 1 * original_risk :=
          mul_le_mul_of_nonneg_right (compute_collision_probability_le_one _ _ _) h0
      _ = original_risk := one_mul _
  · intro hdet
    rw [compute_collision_probability_of_det_eq_zero _ _ hdet, one_mul]

/-- Witness for C2 at a concrete input: risk 1/2, zero burn, identity
covariance, radius 2. -/
theorem compute_risk_bounds_witness :
    0 ≤ compute_risk (1 / 2) ![0, 0, 0] 1 2 ∧
      compute_risk (1 / 2) ![0, 0, 0] 1 2 ≤ 1 / 2 :=
  (compute_risk_bounds (1 / 2) ![0, 0, 0] 1 2 (by norm_num) (by norm_num)
    (by norm_num)).1

/-- Shared symmetry argument: if the two diagonal blocks of the input are
symmetric, the updated covariance is symmetric, whatever the cross blocks
are. -/
lemma update_transpose_eq (cov : Cov6) (w : Vec3)
    (h11 : cov.toBlocks₁₁ᵀ = cov.toBlocks₁₁)
    (h22 : cov.toBlocks₂₂ᵀ = cov.toBlocks₂₂) :
    (update_covariance_with_vector cov w)ᵀ = update_covariance_with_vector cov w := by
  rw [update_covariance_with_vector_eq, Matrix.fromBlocks_transpose,
    Matrix.transpose_transpose]
  have hA : (cov.toBlocks₁₁ + coupling_factor • Q_velocity_of w)ᵀ =
      cov.toBlocks₁₁ + coupling_factor • Q_velocity_of w := by
    rw [Matrix.transpose_add, Matrix.transpose_smul, h11, Q_velocity_of_symm]
  have hD : (cov.toBlocks₂₂ + Q_velocity_of w)ᵀ =
      cov.toBlocks₂₂ + Q_velocity_of w := by
    rw [Matrix.transpose_add, h22, Q_velocity_of_symm]
  rw [hA, hD]

/-- A 3×3 matrix that is not symmetric: a single 1 above the diagonal. -/
def asymMat3 : Mat3 :=
  Matrix.of fun i j => if i = 0 ∧ j = 1 then (1 : ℝ) else 0

/-- A 6×6 matrix whose upper-left (position) block is not symmetric. -/
def covAsymPos : Cov6 :=
  Matrix.fromBlocks asymMat3 0 0 0

/-- C3 counterexample: for a 6×6 matrix whose lower-left block is not the
transpose of its upper-right block (here a single 1 in the lower-left block),
a zero burn does not return the input unchanged: the (3,0) entry is rebuilt
from the upper-right block and becomes 0 instead of 1. -/
theorem zero_burn_not_identity_cex :
    update_covariance_with_vector (Matrix.fromBlocks 0 0 1 0) ![0, 0, 0]
        (Sum.inr 0) (Sum.inl 0) = 0 ∧
      (Matrix.fromBlocks (0 : Mat3) (0 : Mat3) (1 : Mat3) (0 : Mat3))
        (Sum.inr 0) (Sum.inl 0) = 1 := by
  constructor
  · rw [update_covariance_with_vector_eq, Q_velocity_of_zero]
    simp [Matrix.toBlocks_fromBlocks₁₂]
  · simp [Matrix.fromBlocks_apply₂₁]

/-- C3 (amended): for every 6×6 matrix whose lower-left block is the transpose
of its upper-right block — in particular every symmetric covariance — a zero
burn returns the matrix unchanged, entry for entry. -/
theorem zero_burn_identity (cov : Cov6) (h : cov.toBlocks₂₁ = cov.toBlocks₁₂ᵀ) :
    update_covariance_with_vector cov ![0, 0, 0] = cov := by
  rw [update_covariance_with_vector_eq, Q_velocity_of_zero]
  simp only [smul_zero, add_zero]
  rw [← h]
  exact Matrix.fromBlocks_toBlocks cov

/-- Witness for C3 (amended) at a concrete input: the identity covariance. -/
theorem zero_burn_identity_witness :
    update_covariance_with_vector 1 ![0, 0, 0] = 1 :=
  zero_burn_identity 1 (by
    ext i j
    simp [Matrix.toBlocks₂₁, Matrix.toBlocks₁₂, Matrix.one_apply])

/-- C4: for every symmetric 6×6 input covariance and every 3D delta-V, the
updated covariance is symmetric. -/
theorem update_symmetric_of_symmetric (cov : Cov6) (dv : Vec3) (h : covᵀ = cov) :
    (update_covariance_with_vector cov dv)ᵀ = update_covariance_with_vector cov dv := by
  apply update_transpose_eq
  · ext i j
    simp only [Matrix.transpose_apply, Matrix.toBlocks₁₁, Matrix.of_apply]
    exact congrFun (congrFun h (Sum.inl i)) (Sum.inl j)
  · ext i j
    simp only [Matrix.transpose_apply, Matrix.toBlocks₂₂, Matrix.of_apply]
    exact congrFun (congrFun h (Sum.inr i)) (Sum.inr j)

/-- Witness for C4 at a concrete input: the identity covariance and the burn
(1, 2, 3). -/
theorem update_symmetric_of_symmetric_witness :
    (update_covariance_with_vector 1 ![1, 2, 3])ᵀ =
      update_covariance_with_vector 1 ![1, 2, 3] :=
  update_symmetric_of_symmetric 1 ![1, 2, 3] Matrix.transpose_one

/-- C5 counterexample: for an input whose upper-left (position) block is not
symmetric, the output of a zero burn is not symmetric either — the claim that
the output is symmetric regardless of the symmetry of the input is false. -/
theorem update_symmetric_cex :
    (update_covariance_with_vector covAsymPos ![0, 0, 0])ᵀ ≠
      update_covariance_with_vector covAsymPos ![0, 0, 0] := by
  have hU : update_covariance_with_vector covAsymPos ![0, 0, 0] = covAsymPos := by
    rw [update_covariance_with_vector_eq, Q_velocity_of_zero]
    simp only [smul_zero, add_zero]
    unfold covAsymPos
    simp only [Matrix.toBlocks_fromBlocks₁₁, Matrix.toBlocks_fromBlocks₁₂,
      Matrix.toBlocks_fromBlocks₂₂, Matrix.transpose_zero]
  rw [hU]
  intro h
  have h01 := congrFun (congrFun h (Sum.inl 0)) (Sum.inl 1)
  simp [covAsymPos, asymMat3, Matrix.fromBlocks_apply₁₁,
    Matrix.transpose_apply] at h01

/-- C5 (amended): the output of the update is symmetric for every input whose
two diagonal 3×3 blocks are symmetric, regardless of the input's cross blocks;
full symmetry of the input is not needed, but asymmetry of a diagonal block
passes through to the output. -/
theorem update_symmetric_of_diag_symmetric (cov : Cov6) (dv : Vec3)
    (h11 : cov.toBlocks₁₁ᵀ = cov.toBlocks₁₁)
    (h22 : cov.toBlocks₂₂ᵀ = cov.toBlocks₂₂) :
    (update_covariance_with_vector cov dv)ᵀ = update_covariance_with_vector cov dv :=
  update_transpose_eq cov dv h11 h22

/-- Witness for C5 (amended) at a concrete input: identity diagonal blocks
with a non-mirrored pair of cross blocks. -/
theorem update_symmetric_of_diag_symmetric_witness :
    (update_covariance_with_vector (Matrix.fromBlocks 1 asymMat3 0 1) ![1, 2, 3])ᵀ =
      update_covariance_with_vector (Matrix.fromBlocks 1 asymMat3 0 1) ![1, 2, 3] :=
  update_symmetric_of_diag_symmetric (Matrix.fromBlocks 1 asymMat3 0 1) ![1, 2, 3]
    (by rw [Matrix.toBlocks_fromBlocks₁₁, Matrix.transpose_one])
    (by rw [Matrix.toBlocks_fromBlocks₂₂, Matrix.transpose_one])

/-- A diagonal entry of the velocity block of the update. -/
lemma update_apply_vel_diag (cov : Cov6) (w : Vec3) (i : Fin 3) :
    update_covariance_with_vector cov w (Sum.inr i) (Sum.inr i) =
      cov (Sum.inr i) (Sum.inr i) +
        velocity_uncertainty_scale ^ 2 * (w i * w i) := by
  rw [update_covariance_with_vector_eq, Matrix.fromBlocks_apply₂₂,
    Matrix.add_apply, Q_velocity_of_apply]
  rfl

/-- C7 counterexample: along the direction (1, 0, 0) with magnitudes 0 and 1,
the second diagonal entry of the velocity block (row 4 of the 6×6 matrix) is
unchanged — equal, not strictly larger — because the burn direction has a zero
second component. -/
theorem vel_diag_strict_mono_cex :
    update_covariance_with_vector 1 ((1 : ℝ) • ((norm3 ![1, 0, 0])⁻¹ • ![1, 0, 0]))
        (Sum.inr 1) (Sum.inr 1) =
      update_covariance_with_vector 1 ((0 : ℝ) • ((norm3 ![1, 0, 0])⁻¹ • ![1, 0, 0]))
        (Sum.inr 1) (Sum.inr 1) := by
  rw [update_apply_vel_diag, update_apply_vel_diag]
  simp

/-- C7 (amended): for a fixed nonzero direction `d` and magnitudes
`0 ≤ m1 < m2`, every diagonal entry of the velocity block under magnitude `m2`
is at least the corresponding entry under magnitude `m1`, and strictly larger
exactly where the direction has a nonzero component: at a coordinate where the
direction's component is zero the two entries are equal. -/
theorem vel_diag_monotone (d : Vec3) (hd : d ≠ 0) (m1 m2 : ℝ) (h0 : 0 ≤ m1)
    (h12 : m1 < m2) (cov : Cov6) (i : Fin 3) :
    update_covariance_with_vector cov (m1 • ((norm3 d)⁻¹ • d))
        (Sum.inr i) (Sum.inr i) ≤
      update_covariance_with_vector cov (m2 • ((norm3 d)⁻¹ • d))
        (Sum.inr i) (Sum.inr i) ∧
    (d i ≠ 0 →
      update_covariance_with_vector cov (m1 • ((norm3 d)⁻¹ • d))
          (Sum.inr i) (Sum.inr i) <
        update_covariance_with_vector cov (m2 • ((norm3 d)⁻¹ • d))
          (Sum.inr i) (Sum.inr i)) ∧
    (d i = 0 →
      update_covariance_with_vector cov (m1 • ((norm3 d)⁻¹ • d))
          (Sum.inr i) (Sum.inr i) =
        update_covariance_with_vector cov (m2 • ((norm3 d)⁻¹ • d))
          (Sum.inr i) (Sum.inr i)) := by
  rw [update_apply_vel_diag, update_apply_vel_diag]
  have hn : 0 < norm3 d := norm3_pos_of_ne_zero hd
  have hsc : (0 : ℝ) < velocity_uncertainty_scale ^ 2 := by
    norm_num [velocity_uncertainty_scale]
  have hm : m1 ^ 2 ≤ m2 ^ 2 := by nlinarith
  simp only [Pi.smul_apply, smul_eq_mul]
  refine ⟨?_, ?_, ?_⟩
  · have hcc : 0 ≤ ((norm3 d)⁻¹ * d i) * ((norm3 d)⁻¹ * d i) := mul_self_nonneg _
    have hstep : m1 * ((norm3 d)⁻¹ * d i) * (m1 * ((norm3 d)⁻¹ * d i)) ≤
        m2 * ((norm3 d)⁻¹ * d i) * (m2 * ((norm3 d)⁻¹ * d i)) := by
      nlinarith [hcc, hm]
    have hmul := mul_le_mul_of_nonneg_left hstep hsc.le
    linarith
  · intro hdi
    have hc : (norm3 d)⁻¹ * d i ≠ 0 := mul_ne_zero (inv_ne_zero (ne_of_gt hn)) hdi
    have hpos : 0 < ((norm3 d)⁻¹ * d i) ^ 2 :=
      lt_of_le_of_ne (sq_nonneg _) (Ne.symm (pow_ne_zero 2 hc))
    have hm' : m1 ^ 2 < m2 ^ 2 := by nlinarith
    nlinarith [mul_pos hsc hpos, hm']
  · intro hdi
    rw [hdi]
    ring

/-- Witness for C7 (amended) at a concrete input: direction (1, 1, 1),
magnitudes 0 and 1, identity covariance, first velocity coordinate. -/
theorem vel_diag_monotone_witness :
    update_covariance_with_vector 1 ((0 : ℝ) • ((norm3 ![1, 1, 1])⁻¹ • ![1, 1, 1]))
        (Sum.inr 0) (Sum.inr 0) <
      update_covariance_with_vector 1 ((1 : ℝ) • ((norm3 ![1, 1, 1])⁻¹ • ![1, 1, 1]))
        (Sum.inr 0) (Sum.inr 0) :=
  (vel_diag_monotone ![1, 1, 1]
    (by intro h; have h0 := congrFun h 0; norm_num at h0)
    0 1 le_rfl one_pos 1 0).2.1 (by norm_num)

/-- C10: the lower-left 3×3 block of the input has no influence on the update:
two inputs that agree on the other three blocks produce identical outputs,
because the output's lower-left block is rebuilt as the transpose of the
updated upper-right block. -/
theorem lower_left_block_no_influence (cov1 cov2 : Cov6) (dv : Vec3)
    (h11 : cov1.toBlocks₁₁ = cov2.toBlocks₁₁)
    (h12 : cov1.toBlocks₁₂ = cov2.toBlocks₁₂)
    (h22 : cov1.toBlocks₂₂ = cov2.toBlocks₂₂) :
    update_covariance_with_vector cov1 dv = update_covariance_with_vector cov2 dv := by
  rw [update_covariance_with_vector_eq, update_covariance_with_vector_eq,
    h11, h12, h22]

/-! ### Orbit model -/

lemma calculate_delta_r_fst (a dv mu : ℝ) :
    (calculate_delta_r a dv mu).1 =
      -mu / (2 * (0.5 * (Real.sqrt (mu / a) + dv) ^ 2 - mu / a)) - a :=
  rfl

lemma calculate_delta_r_snd (a dv mu : ℝ) :
    (calculate_delta_r a dv mu).2 =
      -mu / (2 * (0.5 * (Real.sqrt (mu / a) + dv) ^ 2 - mu / a)) :=
  rfl

/-- C8: for every `a > 0` and the default gravitational parameter,
`calculate_delta_r a 0` returns `delta_r = 0` and `a_new = a`. -/
theorem zero_delta_v_round_trip (a : ℝ) (ha : 0 < a) :
    calculate_delta_r a 0 muEarth = (0, a) := by
  have hmu : (0 : ℝ) < muEarth := by norm_num [muEarth]
  have hsq : Real.sqrt (muEarth / a) ^ 2 = muEarth / a :=
    Real.sq_sqrt (le_of_lt (div_pos hmu ha))
  have ha' : a ≠ 0 := ne_of_gt ha
  have hmu' : muEarth ≠ 0 := ne_of_gt hmu
  have hval : -muEarth / (2 * (0.5 * (Real.sqrt (muEarth / a) + 0) ^ 2 -
      muEarth / a)) = a := by
    rw [add_zero, hsq]
    rw [show (2 : ℝ) * (0.5 * (muEarth / a) - muEarth / a) = -(muEarth / a) by ring]
    rw [div_neg, neg_div, neg_neg]
    field_simp
  have h1 : (calculate_delta_r a 0 muEarth).1 = 0 := by
    rw [calculate_delta_r_fst, hval, sub_self]
  have h2 : (calculate_delta_r a 0 muEarth).2 = a := by
    rw [calculate_delta_r_snd, hval]
  calc calculate_delta_r a 0 muEarth
      = ((calculate_delta_r a 0 muEarth).1, (calculate_delta_r a 0 muEarth).2) := rfl
    _ = (0, a) := by rw [h1, h2]

/-- Witness for C8 at a concrete input: `a = 2`. -/
theorem zero_delta_v_round_trip_witness :
    calculate_delta_r 2 0 muEarth = (0, 2) :=
  zero_delta_v_round_trip 2 (by norm_num)

/-- C6 counterexample: at `a = muEarth` (so the circular speed is exactly
1 m/s) a positive burn of 3 m/s drives the post-burn energy positive and the
returned `delta_r` is negative, refuting the unconditional claim that a
positive delta-V yields a positive `delta_r`. -/
theorem delta_r_sign_cex : (calculate_delta_r muEarth 3 muEarth).1 < 0 := by
  rw [calculate_delta_r_fst, div_self (by norm_num [muEarth] : muEarth ≠ 0),
    Real.sqrt_one]
  norm_num [muEarth]

/-- C6 (amended): for every `a > 0` and the default gravitational parameter,
a positive delta-V yields a positive `delta_r` provided the post-burn specific
orbital energy remains negative, and a negative delta-V greater than
`-2·√(mu/a)` (for which the post-burn energy is automatically negative) yields
a negative `delta_r`. -/
theorem delta_r_sign (a dv : ℝ) (ha : 0 < a) :
    (0 < dv → 0.5 * (Real.sqrt (muEarth / a) + dv) ^ 2 - muEarth / a < 0 →
      0 < (calculate_delta_r a dv muEarth).1) ∧
    (-2 * Real.sqrt (muEarth / a) < dv → dv < 0 →
      (calculate_delta_r a dv muEarth).1 < 0) := by
  have hmu : (0 : ℝ) < muEarth := by norm_num [muEarth]
  have hfrac : 0 < muEarth / a := div_pos hmu ha
  set v := Real.sqrt (muEarth / a) with hv
  have hvpos : 0 < v := Real.sqrt_pos.mpr hfrac
  have hv2 : v ^ 2 = muEarth / a := Real.sq_sqrt hfrac.le
  have hav : a * v ^ 2 = muEarth := by
    rw [hv2]
    field_simp
  constructor
  · intro hdv hE
    rw [calculate_delta_r_fst, ← hv]
    have hden : 2 * (0.5 * (v + dv) ^ 2 - muEarth / a) < 0 := by linarith
    have hkey : a < -muEarth / (2 * (0.5 * (v + dv) ^ 2 - muEarth / a)) := by
      rw [lt_div_iff_of_neg hden, ← hv2]
      nlinarith [hav, mul_pos (mul_pos ha hdv) (by linarith : (0 : ℝ) < 2 * v + dv)]
    linarith
  · intro hdvlow hdvneg
    rw [calculate_delta_r_fst, ← hv]
    have hvn1 : -v < v + dv := by linarith
    have hvn2 : v + dv < v := by linarith
    have hsq : (v + dv) ^ 2 < v ^ 2 := by
      nlinarith [mul_pos (show (0 : ℝ) < v - (v + dv) by linarith)
        (show (0 : ℝ) < v + (v + dv) by linarith)]
    have hE : 0.5 * (v + dv) ^ 2 - muEarth / a < 0 := by
      rw [← hv2]
      nlinarith [hvpos]
    have hden : 2 * (0.5 * (v + dv) ^ 2 - muEarth / a) < 0 := by linarith
    have hkey : -muEarth / (2 * (0.5 * (v + dv) ^ 2 - muEarth / a)) < a := by
      rw [div_lt_iff_of_neg hden, ← hv2]
      nlinarith [hav, mul_pos ha (show (0 : ℝ) < v ^ 2 - (v + dv) ^ 2 by linarith)]
    linarith

/-- Witness for C6 (amended) at concrete inputs: `a = muEarth` with burns
`+0.2` (post-burn energy negative) and `-1`. -/
theorem delta_r_sign_witness :
    0 < (calculate_delta_r muEarth 0.2 muEarth).1 ∧
      (calculate_delta_r muEarth (-1) muEarth).1 < 0 := by
  have hmu1 : muEarth / muEarth = 1 :=
    div_self (by norm_num [muEarth] : muEarth ≠ 0)
  constructor
  · exact (delta_r_sign muEarth 0.2 (by norm_num [muEarth])).1 (by norm_num)
      (by rw [hmu1, Real.sqrt_one]; norm_num)
  · exact (delta_r_sign muEarth (-1) (by norm_num [muEarth])).2
      (by rw [hmu1, Real.sqrt_one]; norm_num) (by norm_num)

/-- C9 counterexample: with the default gravitational parameter,
`calculate_delta_r 2000000 500` returns an `a_new` below 2,200,000 m, so it is
not in the approximate range of 2,515,000 m stated by the claim. -/
theorem a_new_scenario_cex :
    (calculate_delta_r 2000000 500 muEarth).2 < 2200000 := by
  rw [calculate_delta_r_snd]
  have hc : muEarth / 2000000 = 1993002209 / 10 := by norm_num [muEarth]
  have hs1 : (14117 : ℝ) < Real.sqrt (muEarth / 2000000) := by
    rw [hc]
    exact (Real.lt_sqrt (by norm_num)).mpr (by norm_num)
  have hs2 : Real.sqrt (muEarth / 2000000) < 14118 := by
    rw [hc]
    exact (Real.sqrt_lt' (by norm_num)).mpr (by norm_num)
  set s := Real.sqrt (muEarth / 2000000) with hsdef
  have hl : (213656689 : ℝ) < (s + 500) ^ 2 := by
    nlinarith [mul_pos (show (0 : ℝ) < s + 500 - 14617 by linarith)
      (show (0 : ℝ) < s + 500 + 14617 by linarith)]
  have hu : (s + 500) ^ 2 < 213685924 := by
    nlinarith [mul_pos (show (0 : ℝ) < 14618 - (s + 500) by linarith)
      (show (0 : ℝ) < 14618 + (s + 500) by linarith)]
  have hD : 2 * (0.5 * (s + 500) ^ 2 - muEarth / 2000000) =
      (s + 500) ^ 2 - 1993002209 / 5 := by
    rw [hc]
    ring
  have hXpos : (0 : ℝ) < -(2 * (0.5 * (s + 500) ^ 2 - muEarth / 2000000)) := by
    rw [hD]
    linarith
  have hswap : -muEarth / (2 * (0.5 * (s + 500) ^ 2 - muEarth / 2000000)) =
      muEarth / (-(2 * (0.5 * (s + 500) ^ 2 - muEarth / 2000000))) := by
    rw [neg_div, div_neg]
  rw [hswap, div_lt_iff₀ hXpos]
  have hnd : (1849145178 : ℝ) / 10 <
      -(2 * (0.5 * (s + 500) ^ 2 - muEarth / 2000000)) := by
    rw [hD]
    linarith
  have hmuval : muEarth = 398600441800000 := by norm_num [muEarth]
  rw [hmuval]
  linarith

/-- C9 (amended): `calculate_delta_r 2000000 500` with the default
gravitational parameter returns an `a_new` in the approximate range of
2,155,000 m — strictly between 2,155,000 and 2,156,000 — and `a_new` is
exactly the closed-form vis-viva value
`-mu / (2·(0.5·(√(mu/a)+500)² - mu/a))`. -/
theorem a_new_scenario :
    (calculate_delta_r 2000000 500 muEarth).2 =
      -muEarth / (2 * (0.5 * (Real.sqrt (muEarth / 2000000) + 500) ^ 2 -
        muEarth / 2000000)) ∧
    2155000 < (calculate_delta_r 2000000 500 muEarth).2 ∧
    (calculate_delta_r 2000000 500 muEarth).2 < 2156000 := by
  have hc : muEarth / 2000000 = 1993002209 / 10 := by norm_num [muEarth]
  have hs1 : (14117 : ℝ) < Real.sqrt (muEarth / 2000000) := by
    rw [hc]
    exact (Real.lt_sqrt (by norm_num)).mpr (by norm_num)
  have hs2 : Real.sqrt (muEarth / 2000000) < 14118 := by
    rw [hc]
    exact (Real.sqrt_lt' (by norm_num)).mpr (by norm_num)
  set s := Real.sqrt (muEarth / 2000000) with hsdef
  have hl : (213656689 : ℝ) < (s + 500) ^ 2 := by
    nlinarith [mul_pos (show (0 : ℝ) < s + 500 - 14617 by linarith)
      (show (0 : ℝ) < s + 500 + 14617 by linarith)]
  have hu : (s + 500) ^ 2 < 213685924 := by
    nlinarith [mul_pos (show (0 : ℝ) < 14618 - (s + 500) by linarith)
      (show (0 : ℝ) < 14618 + (s + 500) by linarith)]
  have hD : 2 * (0.5 * (s + 500) ^ 2 - muEarth / 2000000) =
      (s + 500) ^ 2 - 1993002209 / 5 := by
    rw [hc]
    ring
  have hDpos : (0 : ℝ) < -(2 * (0.5 * (s + 500) ^ 2 - muEarth / 2000000)) := by
    rw [hD]
    linarith
  have hswap : -muEarth / (2 * (0.5 * (s + 500) ^ 2 - muEarth / 2000000)) =
      muEarth / (-(2 * (0.5 * (s + 500) ^ 2 - muEarth / 2000000))) := by
    rw [neg_div, div_neg]
  have hmuval : muEarth = 398600441800000 := by norm_num [muEarth]
  refine ⟨calculate_delta_r_snd 2000000 500 muEarth, ?_, ?_⟩
  · rw [calculate_delta_r_snd, ← hsdef, hswap, lt_div_iff₀ hDpos]
    have hnd : -(2 * (0.5 * (s + 500) ^ 2 - muEarth / 2000000)) <
        1849437528 / 10 := by
      rw [hD]
      linarith
    rw [hmuval]
    linarith
  · rw [calculate_delta_r_snd, ← hsdef, hswap, div_lt_iff₀ hDpos]
    have hnd : (1849145178 : ℝ) / 10 <
        -(2 * (0.5 * (s + 500) ^ 2 - muEarth / 2000000)) := by
      rw [hD]
      linarith
    rw [hmuval]
    linarith

/-- Witness for C10 at a concrete input: two matrices differing exactly in the
lower-left block (zero matrix vs identity there). -/
theorem lower_left_block_no_influence_witness :
    update_covariance_with_vector (Matrix.fromBlocks 0 0 0 0) ![1, 2, 3] =
      update_covariance_with_vector (Matrix.fromBlocks 0 0 1 0) ![1, 2, 3] :=
  lower_left_block_no_influence _ _ ![1, 2, 3]
    (by rw [Matrix.toBlocks_fromBlocks₁₁, Matrix.toBlocks_fromBlocks₁₁])
    (by rw [Matrix.toBlocks_fromBlocks₁₂, Matrix.toBlocks_fromBlocks₁₂])
    (by rw [Matrix.toBlocks_fromBlocks₂₂, Matrix.toBlocks_fromBlocks₂₂])

end
